import Mathlib

/-!
Shallow embedding of the cross-stitch pattern parsing core
(src/server/src/utils/pdf_parser.py, class CrossStitchPDFParser).

Conventions of the embedding:
- Python floats are modelled as exact rationals.
- Python `int(x)` applied to a float truncates toward zero; `pyInt` below.
- Python strings are modelled as `String` / `List Char`; only the ASCII
  behaviour of `str.strip` / `str.isspace` / `int(s, 16)` is modelled.
- Python `int(s, 16)` is modelled faithfully for the call sites that occur
  (2-character slices): surrounding whitespace, an optional sign and
  underscores between digits are accepted; the optional "0x" prefix is not
  modelled, which is indistinguishable on strings of length at most two
  because `int("0x", 16)` and `int("x?", 16)` raise in Python and are
  `none` here.
- Fallible calls (`int(...)` under `try/except`) return `Option`.
-/

/-- Python `int()` applied to a float value: truncation toward zero. -/
def pyInt (q : ℚ) : Int := if q < 0 then ⌈q⌉ else ⌊q⌋

/-- Python `round(x, 1)` on an exact value: round half to even at one
decimal place, returning the rounded rational. -/
def roundHalfEven (q : ℚ) : Int :=
  if q - ⌊q⌋ < 1/2 then ⌊q⌋
  else if 1/2 < q - ⌊q⌋ then ⌊q⌋ + 1
  else if 2 ∣ ⌊q⌋ then ⌊q⌋ else ⌊q⌋ + 1

/-- Rounding to one decimal place, as Python `round(x, 1)`. -/
def roundTo1 (q : ℚ) : ℚ := (roundHalfEven (q * 10) : ℚ) / 10

/-- Python whitespace characters recognised by `str.strip()` (ASCII part). -/
def py_isspace (c : Char) : Bool :=
  c.toNat = 32 ∨ c.toNat = 9 ∨ c.toNat = 10 ∨ c.toNat = 13 ∨
  c.toNat = 11 ∨ c.toNat = 12

/-- Value of a single hexadecimal digit, accepting both cases. -/
def hexDigitVal (c : Char) : Option Nat :=
  if 48 ≤ c.toNat ∧ c.toNat ≤ 57 then some (c.toNat - 48)
  else if 97 ≤ c.toNat ∧ c.toNat ≤ 102 then some (c.toNat - 87)
  else if 65 ≤ c.toNat ∧ c.toNat ≤ 70 then some (c.toNat - 55)
  else none

/-- Continuation of hexadecimal digit parsing: digits already read have
value `acc`; a single underscore is allowed between two digits, as in
Python numeric literals. -/
def parseHexRest (acc : Nat) : List Char → Option Nat
  | [] => some acc
  | c :: rest =>
    if c.toNat = 95 then
      match rest with
      | c2 :: rest2 =>
        match hexDigitVal c2 with
        | some d => parseHexRest (acc * 16 + d) rest2
        | none => none
      | [] => none
    else
      match hexDigitVal c with
      | some d => parseHexRest (acc * 16 + d) rest
      | none => none

/-- Parse a nonempty run of hexadecimal digits (underscores allowed
between digits). -/
def parseHexAll : List Char → Option Nat
  | [] => none
  | c :: rest =>
    match hexDigitVal c with
    | some d => parseHexRest d rest
    | none => none

/-- Strip Python whitespace from both ends of a character list. -/
def pyStrip (cs : List Char) : List Char :=
  ((cs.dropWhile py_isspace).reverse.dropWhile py_isspace).reverse

/-- Python `int(s, 16)`: strip whitespace, optional sign (codes 43 and 45
are the plus and minus signs), then hexadecimal digits; `none` models a
raised `ValueError`. -/
def pyIntHexChars (cs : List Char) : Option Int :=
  match pyStrip cs with
  | [] => none
  | c :: rest =>
    if c.toNat = 43 then (parseHexAll rest).map (fun n => (n : Int))
    else if c.toNat = 45 then (parseHexAll rest).map (fun n => -(n : Int))
    else (parseHexAll (c :: rest)).map (fun n => (n : Int))

/-- Hexadecimal digit character (lowercase) for a value below 16, as
produced by Python `format(n, "x")`. -/
def toHexDigit (n : Nat) : Char :=
  if n < 10 then Char.ofNat (48 + n) else Char.ofNat (87 + n)

/-- Accumulator loop of hexadecimal printing: prepend the digits of `n`
in front of `acc`.  The first argument is structural fuel; `fuel = n`
always suffices because `n / 16 < n` for positive `n`. -/
def natToHexAux : Nat → Nat → List Char → List Char
  | 0, _, acc => acc
  | _ + 1, 0, acc => acc
  | fuel + 1, n, acc => natToHexAux fuel (n / 16) (toHexDigit (n % 16) :: acc)

/-- Lowercase hexadecimal digits of `n`, as Python `format(n, "x")`. -/
def natToHex (n : Nat) : List Char := if n = 0 then ['0'] else natToHexAux n n []

/-- Zero-pad a digit string on the left to width `w`, as the Python
format specifier "0Nx" does for nonnegative values. -/
def padZero (w : Nat) (cs : List Char) : List Char :=
  List.replicate (w - cs.length) '0' ++ cs

/-- Python `format(n, "06x")` for an `int` value: for negative values the
sign counts toward the field width. -/
def pyFormat06x (n : Int) : List Char :=
  if 0 ≤ n then padZero 6 (natToHex n.toNat)
  else '-' :: padZero 5 (natToHex (-n).toNat)

/-- Python `format(n, "02x")` for an `int` value. -/
def pyFormat02x (n : Int) : List Char :=
  if 0 ≤ n then padZero 2 (natToHex n.toNat)
  else '-' :: padZero 1 (natToHex (-n).toNat)

/-- Duck-typed color value accepted by `parse_color`: a packed integer, a
3-tuple of float channels, a string, or any other shape (for example a
tuple of a different arity), which resolves to `None`. -/
inductive ColorValue where
  | intc (n : Int)
  | triple (r g b : ℚ)
  | strc (s : String)
  | other
deriving DecidableEq

/-- Source `parse_color`: normalise a color value to a hex string.  The
argument is `Option ColorValue` because call sites pass
`drawing.get("fill")`, where a missing key reads as `None`. -/
def parse_color : Option ColorValue → Option String
  | none => none
  | some (.intc n) => some (String.mk ('#' :: pyFormat06x n))
  | some (.triple r g b) =>
    some (String.mk ('#' :: (pyFormat02x (pyInt (r * 255)) ++
      pyFormat02x (pyInt (g * 255)) ++ pyFormat02x (pyInt (b * 255)))))
  | some (.strc s) => some s
  | some .other => none

/-- Integer RGB triple returned by `hex_to_rgb`; Python ints can in
principle be negative here (a minus sign parses), hence `Int`. -/
structure RGB where
  r : Int
  g : Int
  b : Int
deriving DecidableEq

/-- Python slice `s[a:b]` for nonnegative `a ≤ b` on a character list. -/
def pySlice (cs : List Char) (a b : Nat) : List Char := (cs.drop a).take (b - a)

/-- Character-list core of `hex_to_rgb`.  The source returns the zero
triple when the string is empty or does not start with the hash
character (code 35); otherwise it strips all leading hashes
(`str.lstrip`), slices three 2-character groups and parses each with
`int(_, 16)` inside a single `try/except` whose handler returns the zero
triple. -/
def hex_to_rgb_chars (cs : List Char) : RGB :=
  match cs with
  | [] => ⟨0, 0, 0⟩
  | c :: _ =>
    if c.toNat = 35 then
      let h := cs.dropWhile (fun d => d.toNat = 35)
      match pyIntHexChars (pySlice h 0 2), pyIntHexChars (pySlice h 2 4),
          pyIntHexChars (pySlice h 4 6) with
      | some r, some g, some b => ⟨r, g, b⟩
      | _, _, _ => ⟨0, 0, 0⟩
    else ⟨0, 0, 0⟩

/-- Source `hex_to_rgb`: hex color string to integer RGB triple. -/
def hex_to_rgb (s : String) : RGB := hex_to_rgb_chars s.toList

/-- Point of a drawing item (`fitz.Point`). -/
structure Point where
  x : ℚ
  y : ℚ
deriving DecidableEq

/-- Drawing item as produced by `page.get_drawings()["items"]`: a tagged
tuple that is a line, a rectangle or a curve.  Only the fields the source
reads are modelled. -/
inductive DrawItem where
  | line (p1 p2 : Point)
  | rect (x0 y0 x1 y1 : ℚ)
  | curve (p1 p2 p3 p4 : Point)
deriving DecidableEq

/-- Drawing dictionary.  `fill := none` covers both a missing "fill" key
and a "fill" key holding `None`; the source treats the two identically
(`drawing.get("fill")` and the falsiness test after `parse_color`). -/
structure Drawing where
  fill : Option ColorValue
  items : List DrawItem
deriving DecidableEq

/-- Horizontal line record built in `detect_grid`. -/
structure HLine where
  y : ℚ
  x1 : ℚ
  x2 : ℚ
  length : ℚ
deriving DecidableEq

/-- Vertical line record built in `detect_grid`. -/
structure VLine where
  x : ℚ
  y1 : ℚ
  y2 : ℚ
  length : ℚ
deriving DecidableEq

/-- Classification pass of `detect_grid` (grid_tolerance = 1): a line item
whose endpoint y difference is below tolerance is horizontal. -/
def classifyH (drawings : List Drawing) : List HLine :=
  drawings.flatMap fun d =>
    d.items.filterMap fun it =>
      match it with
      | .line p1 p2 =>
        if |p1.y - p2.y| < 1 then
          some ⟨(p1.y + p2.y) / 2, min p1.x p2.x, max p1.x p2.x, |p2.x - p1.x|⟩
        else none
      | _ => none

/-- Classification pass of `detect_grid`: a line item that is not
horizontal and whose endpoint x difference is below tolerance is
vertical (the source uses `elif`). -/
def classifyV (drawings : List Drawing) : List VLine :=
  drawings.flatMap fun d =>
    d.items.filterMap fun it =>
      match it with
      | .line p1 p2 =>
        if |p1.y - p2.y| < 1 then none
        else if |p1.x - p2.x| < 1 then
          some ⟨(p1.x + p2.x) / 2, min p1.y p2.y, max p1.y p2.y, |p2.y - p1.y|⟩
        else none
      | _ => none

/-- Length filter of `detect_grid` (min_length = 50, strict comparison in
the source: `l["length"] > min_length`). -/
def filteredH (drawings : List Drawing) : List HLine :=
  (classifyH drawings).filter fun l => 50 < l.length

/-- Length filter of `detect_grid` for vertical lines. -/
def filteredV (drawings : List Drawing) : List VLine :=
  (classifyV drawings).filter fun l => 50 < l.length

/-- Stable insertion into a list sorted by the y field; models one step
of Python `list.sort(key=...)`, which is a stable sort.  Downstream code
reads only the sorted positions, so any sort with the same key gives the
same grid. -/
def insertByY (a : HLine) : List HLine → List HLine
  | [] => [a]
  | b :: bs => if b.y < a.y then b :: insertByY a bs else a :: b :: bs

/-- Stable sort of horizontal lines by y. -/
def sortByY (l : List HLine) : List HLine := l.foldr insertByY []

/-- Stable insertion into a list sorted by the x field. -/
def insertByX (a : VLine) : List VLine → List VLine
  | [] => [a]
  | b :: bs => if b.x < a.x then b :: insertByX a bs else a :: b :: bs

/-- Stable sort of vertical lines by x. -/
def sortByX (l : List VLine) : List VLine := l.foldr insertByX []

/-- Consecutive gaps of a list of positions, as the comprehension
`[xs[i+1] - xs[i] for i in range(len(xs)-1)]`. -/
def gaps : List ℚ → List ℚ
  | [] => []
  | [_] => []
  | a :: b :: rest => (b - a) :: gaps (b :: rest)

/-- Occurrence count of a value in a list, modelling the defaultdict
counts of `find_common_spacing`. -/
def countQ (xs : List ℚ) (v : ℚ) : Nat := (xs.filter fun x => x = v).length

/-- First occurrences of a list in order, skipping values already seen;
models the insertion order of the Python dict of bucket counts in
`find_common_spacing`, and first-seen order of colors in
`extract_colors`. -/
def dedupFirstAux {α : Type} [DecidableEq α] (seen : List α) : List α → List α
  | [] => []
  | x :: xs =>
    if x ∈ seen then dedupFirstAux seen xs
    else x :: dedupFirstAux (x :: seen) xs

/-- Source `find_common_spacing`: bucket the gaps by their value rounded
to one decimal place and return the bucket value with the highest count.
Python `max(items, key=...)` returns the first maximal item in dict
insertion order, which is first-occurrence order of the rounded values;
the fold below keeps the earlier key on ties accordingly. -/
def find_common_spacing (spacings : List ℚ) : ℚ :=
  match spacings with
  | [] => 0
  | _ :: _ =>
    let rounded := spacings.map roundTo1
    match dedupFirstAux [] rounded with
    | [] => 0
    | k :: ks =>
      ks.foldl (fun best k2 =>
        if countQ rounded best < countQ rounded k2 then k2 else best) k

/-- Grid dictionary returned by `analyze_grid_lines`; the nested "bounds"
dict is flattened into the four edge fields. -/
structure GridSpec where
  detected : Bool
  rows : Int
  columns : Int
  cell_width : ℚ
  cell_height : ℚ
  top : ℚ
  bottom : ℚ
  left : ℚ
  right : ℚ
  total_cells : Int
deriving DecidableEq

/-- Source `analyze_grid_lines`.  Only called with at least
`min_grid_lines = 5` lines on each side, so the `headD`/`getLastD`
defaults never fire at the call site (Python would raise an IndexError
on an empty list). -/
def analyze_grid_lines (h_lines : List HLine) (v_lines : List VLine) : GridSpec :=
  let hs := sortByY h_lines
  let vs := sortByX v_lines
  let h_spacings := gaps (hs.map fun l => l.y)
  let v_spacings := gaps (vs.map fun l => l.x)
  let cell_height := if h_spacings.isEmpty then 0 else find_common_spacing h_spacings
  let cell_width := if v_spacings.isEmpty then 0 else find_common_spacing v_spacings
  let grid_top := (hs.headD ⟨0, 0, 0, 0⟩).y
  let grid_bottom := (hs.getLastD ⟨0, 0, 0, 0⟩).y
  let grid_left := (vs.headD ⟨0, 0, 0, 0⟩).x
  let grid_right := (vs.getLastD ⟨0, 0, 0, 0⟩).x
  let rows : Int := (h_lines.length : Int) - 1
  let cols : Int := (v_lines.length : Int) - 1
  let cell_width := if cell_width = 0 ∧ 0 < cols then (grid_right - grid_left) / (cols : ℚ) else cell_width
  let cell_height := if cell_height = 0 ∧ 0 < rows then (grid_bottom - grid_top) / (rows : ℚ) else cell_height
  ⟨true, rows, cols, cell_width, cell_height, grid_top, grid_bottom, grid_left, grid_right, rows * cols⟩

/-- Source `detect_grid`: classify, filter by length, and require at
least `min_grid_lines = 5` lines in each orientation; `none` models the
Python `None` return. -/
def detect_grid (drawings : List Drawing) : Option GridSpec :=
  if 5 ≤ (filteredH drawings).length ∧ 5 ≤ (filteredV drawings).length then
    some (analyze_grid_lines (filteredH drawings) (filteredV drawings))
  else none

/-- Stitch type tag. -/
inductive StitchType where
  | cross
  | full
deriving DecidableEq

/-- Stitch record produced by `extract_stitches`. -/
structure Stitch where
  row : Int
  col : Int
  type : StitchType
  color : Option String
deriving DecidableEq

/-- Per-item body of the `extract_stitches` loops: a line item is mapped
at its first endpoint, a rectangle at its centre, and both are recorded
only when the computed cell indices are inside the grid; curves are
ignored. -/
def stitchOfItem (g : GridSpec) (color : Option String) : DrawItem → List Stitch
  | .line p1 _ =>
    let grid_x := pyInt ((p1.x - g.left) / g.cell_width)
    let grid_y := pyInt ((p1.y - g.top) / g.cell_height)
    if 0 ≤ grid_x ∧ grid_x < g.columns ∧ 0 ≤ grid_y ∧ grid_y < g.rows then
      [⟨grid_y, grid_x, .cross, color⟩]
    else []
  | .rect x0 y0 x1 y1 =>
    let center_x := (x0 + x1) / 2
    let center_y := (y0 + y1) / 2
    let grid_x := pyInt ((center_x - g.left) / g.cell_width)
    let grid_y := pyInt ((center_y - g.top) / g.cell_height)
    if 0 ≤ grid_x ∧ grid_x < g.columns ∧ 0 ≤ grid_y ∧ grid_y < g.rows then
      [⟨grid_y, grid_x, .full, color⟩]
    else []
  | .curve _ _ _ _ => []

/-- Source `extract_stitches`: guard on a detected grid and nonzero cell
size, then walk every item of every drawing. -/
def extract_stitches (drawings : List Drawing) (grid : GridSpec) : List Stitch :=
  if grid.detected = false then []
  else if grid.cell_width = 0 ∨ grid.cell_height = 0 then []
  else
    drawings.flatMap fun d =>
      d.items.flatMap (stitchOfItem grid (parse_color d.fill))

/-- Page-local color entry built by `extract_colors`. -/
structure ColorEntry where
  hex : String
  rgb : RGB
deriving DecidableEq

/-- Accumulator step of `extract_colors`: the first component is the
output list, the second the `seen_colors` set (modelled as the list of
seen values; only membership is used).  A color is added when it is
truthy (non-`None` and nonempty) and unseen. -/
def extract_colors_step (acc : List ColorEntry × List String) (d : Drawing) :
    List ColorEntry × List String :=
  match parse_color d.fill with
  | some c =>
    if c ≠ "" ∧ c ∉ acc.2 then (acc.1 ++ [⟨c, hex_to_rgb c⟩], acc.2 ++ [c])
    else acc
  | none => acc

/-- Source `extract_colors`: collect the distinct truthy fill colors of a
page in first-seen order. -/
def extract_colors (drawings : List Drawing) : List ColorEntry :=
  (drawings.foldl extract_colors_step ([], [])).1

/-- Text span of `page.get_text("dict")`; `bbox := none` models a missing
or empty bbox (`span.get("bbox", [])` falsy). -/
structure Span where
  text : String
  bbox : Option (ℚ × ℚ × ℚ × ℚ)
deriving DecidableEq

/-- Line of a text block. -/
structure TextLine where
  spans : List Span
deriving DecidableEq

/-- Text block; `btype` is the "type" field (0 means text). -/
structure Block where
  btype : Int
  lines : List TextLine
deriving DecidableEq

/-- Page text dictionary. -/
structure TextDict where
  blocks : List Block
deriving DecidableEq

/-- Symbol record produced by `extract_symbols`. -/
structure SymbolRec where
  symbol : String
  row : Int
  col : Int
  bbox : ℚ × ℚ × ℚ × ℚ
deriving DecidableEq

/-- Python `str.strip()` on the ASCII whitespace set. -/
def pyStripStr (s : String) : String := String.mk (pyStrip s.toList)

/-- Python `str.isspace()`. -/
def pyIsspaceStr (s : String) : Bool := s.toList ≠ [] ∧ s.toList.all py_isspace

/-- Per-span body of the `extract_symbols` loops.  A span whose stripped
text is a single non-space character and that has a bbox is mapped at the
bbox centre when the grid exists and has positive cell sizes; note the
source records the symbol without any range check on the computed row and
column. -/
def symbolOfSpan (grid : Option GridSpec) (span : Span) : List SymbolRec :=
  let text := pyStripStr span.text
  if text.length = 1 ∧ ¬ pyIsspaceStr text = true then
    match span.bbox, grid with
    | some (x0, y0, x1, y1), some g =>
      if 0 < g.cell_width ∧ 0 < g.cell_height then
        let center_x := (x0 + x1) / 2
        let center_y := (y0 + y1) / 2
        let grid_x := pyInt ((center_x - g.left) / g.cell_width)
        let grid_y := pyInt ((center_y - g.top) / g.cell_height)
        [⟨text, grid_y, grid_x, (x0, y0, x1, y1)⟩]
      else []
    | _, _ => []
  else []

/-- Source `extract_symbols`: walk the spans of the text blocks of type 0. -/
def extract_symbols (td : TextDict) (grid : Option GridSpec) : List SymbolRec :=
  td.blocks.flatMap fun block =>
    if block.btype = 0 then
      block.lines.flatMap fun line => line.spans.flatMap (symbolOfSpan grid)
    else []

/-- Per-page result assembled by `parse_page`, restricted to the fields
the verified claims are about (page number, size and legend omitted). -/
structure PageData where
  grid : Option GridSpec
  stitches : List Stitch
  colors : List ColorEntry
  symbols : List SymbolRec
deriving DecidableEq

/-- Source `parse_page`: detect the grid, and extract stitches only when
a grid was detected (`page_data["stitches"]` keeps its initial `[]`
otherwise); colors and symbols are always extracted, symbols against the
possibly absent grid. -/
def parse_page (drawings : List Drawing) (td : TextDict) : PageData :=
  let grid := detect_grid drawings
  { grid := grid
    stitches := match grid with
      | some g => extract_stitches drawings g
      | none => []
    colors := extract_colors drawings
    symbols := extract_symbols td grid }

/-- Entry of the document-wide palette built by `organize_color_palette`. -/
structure PaletteEntry where
  id : Nat
  hex : String
  rgb : RGB
deriving DecidableEq

/-- Set insertion, modelling `all_colors.add(hex)`.  A Python set holds
each value once; the model keeps first-insertion order, which fixes one
of the unspecified iteration orders of a CPython set — every property
proved below is independent of that order. -/
def insertSet (s : List String) (x : String) : List String :=
  if x ∈ s then s else s ++ [x]

/-- Color collection loop of `parse`: add the hex field of every page
color entry to the document-wide set. -/
def collect_colors (pages : List PageData) : List String :=
  pages.foldl (fun acc p => p.colors.foldl (fun a c => insertSet a c.hex) acc) []

/-- Index loop of `organize_color_palette` (`for i, color in
enumerate(colors)` with id `i + 1`). -/
def organize_color_palette_from (i : Nat) : List String → List PaletteEntry
  | [] => []
  | c :: cs => ⟨i + 1, c, hex_to_rgb c⟩ :: organize_color_palette_from (i + 1) cs

/-- Source `organize_color_palette`. -/
def organize_color_palette (colors : List String) : List PaletteEntry :=
  organize_color_palette_from 0 colors

/-- Document-level result of `parse`, restricted to the fields the
verified claims are about. -/
structure ParseResult where
  pages : List PageData
  color_palette : List PaletteEntry
  total_pages : Nat
deriving DecidableEq

/-- Source `parse`: parse every page, collect the hex colors of all
pages into a set, and organise the palette from it. -/
def parse (pageInputs : List (List Drawing × TextDict)) : ParseResult :=
  let pages := pageInputs.map fun pi => parse_page pi.1 pi.2
  { pages := pages
    color_palette := organize_color_palette (collect_colors pages)
    total_pages := pageInputs.length }

/-- Horizontal line item of length 100 at height y. -/
def hItem (y : ℚ) : DrawItem := .line ⟨0, y⟩ ⟨100, y⟩

/-- Vertical line item of length 100 at abscissa x. -/
def vItem (x : ℚ) : DrawItem := .line ⟨x, 0⟩ ⟨x, 100⟩

/-- Scenario A of the specification: six horizontal and six vertical
lines of length 100 with spacing 10. -/
def scenarioA : List Drawing :=
  [⟨none, [hItem 0, hItem 10, hItem 20, hItem 30, hItem 40, hItem 50,
           vItem 0, vItem 10, vItem 20, vItem 30, vItem 40, vItem 50]⟩]

/-- Grid the source computes for scenario A. -/
def gridSpecA : GridSpec := ⟨true, 5, 5, 10, 10, 0, 50, 0, 50, 25⟩

/-- C3: on six horizontal lines at y = 0,10,20,30,40,50 of length 100 and
six vertical lines at x = 0,10,20,30,40,50 of length 100, grid inference
detects a grid with rows = 5, columns = 5, cell sizes 10 and bounds
top 0, bottom 50, left 0, right 50. -/
theorem detect_grid_scenario_A : detect_grid scenarioA = some gridSpecA := by
  norm_num [detect_grid, filteredH, filteredV, classifyH, classifyV, scenarioA,
    hItem, vItem, analyze_grid_lines, sortByY, sortByX, insertByY, insertByX,
    gaps, find_common_spacing, dedupFirstAux, countQ, roundTo1, roundHalfEven,
    gridSpecA, List.flatMap, List.filterMap, List.filter, List.foldr, List.foldl]

/-- Input whose horizontal lines all have length exactly 50 (the vertical
lines have length 100). -/
def scenarioLen50 : List Drawing :=
  [⟨none, [DrawItem.line ⟨0, 0⟩ ⟨50, 0⟩, DrawItem.line ⟨0, 10⟩ ⟨50, 10⟩,
           DrawItem.line ⟨0, 20⟩ ⟨50, 20⟩, DrawItem.line ⟨0, 30⟩ ⟨50, 30⟩,
           DrawItem.line ⟨0, 40⟩ ⟨50, 40⟩, DrawItem.line ⟨0, 50⟩ ⟨50, 50⟩,
           vItem 0, vItem 10, vItem 20, vItem 30, vItem 40, vItem 50]⟩]

/-- C5 counterexample: six classified horizontal lines of length exactly
50 are all removed by the length filter (the source keeps only
`length > 50`), so no grid is detected; the claim that a line of length
exactly 50 is retained fails here. -/
theorem length50_line_filtered_out :
    classifyH scenarioLen50 =
      [⟨0, 0, 50, 50⟩, ⟨10, 0, 50, 50⟩, ⟨20, 0, 50, 50⟩,
       ⟨30, 0, 50, 50⟩, ⟨40, 0, 50, 50⟩, ⟨50, 0, 50, 50⟩] ∧
    filteredH scenarioLen50 = [] ∧
    detect_grid scenarioLen50 = none := by
  refine ⟨?_, ?_, ?_⟩ <;>
    norm_num [detect_grid, filteredH, filteredV, classifyH, classifyV,
      scenarioLen50, vItem, List.flatMap, List.filterMap, List.filter]

/-- C5 amended: after classification, exactly the lines whose length is
at most the threshold 50 are filtered out of the candidate sets (the
comparison is strict, so a line of length exactly 50 is removed). -/
theorem length_filter_keeps_iff_longer (drawings : List Drawing) :
    (∀ l : HLine, l ∈ filteredH drawings ↔ l ∈ classifyH drawings ∧ 50 < l.length) ∧
    (∀ l : VLine, l ∈ filteredV drawings ↔ l ∈ classifyV drawings ∧ 50 < l.length) := by
  constructor <;> intro l <;> simp [filteredH, filteredV, List.mem_filter]

/-- Character list after stripping the leading hash characters, as
`hex_color.lstrip("#")` does inside `hex_to_rgb`. -/
def hexBody (s : String) : List Char := s.toList.dropWhile fun d => d.toNat = 35

/-- C8 counterexample: the claim says every wrong-length input yields the
zero triple, but the 5-digit string "#11223" slices into "11", "22", "3"
and every slice parses, so `hex_to_rgb` returns a nonzero triple. -/
theorem hex_to_rgb_wrong_length_nonzero :
    "#11223".toList.length = 6 ∧
    hex_to_rgb "#11223" = ⟨17, 34, 3⟩ ∧
    (⟨17, 34, 3⟩ : RGB) ≠ ⟨0, 0, 0⟩ := by
  refine ⟨by decide, by decide, by decide⟩

/-- C8 amended: `hex_to_rgb` is a total function (the Python `try/except`
never lets an error escape); an input that does not start with the hash
character yields the zero triple, and so does any input one of whose three
2-character channel slices fails to parse as a hexadecimal integer; a
wrong-length input whose slices all parse, such as "#11223", instead
yields the partial parse rather than the zero triple. -/
theorem hex_to_rgb_soft_fail :
    (∀ s : String, (∀ c, s.toList.head? = some c → c.toNat ≠ 35) →
      hex_to_rgb s = ⟨0, 0, 0⟩) ∧
    (∀ s : String,
      (pyIntHexChars (pySlice (hexBody s) 0 2) = none ∨
       pyIntHexChars (pySlice (hexBody s) 2 4) = none ∨
       pyIntHexChars (pySlice (hexBody s) 4 6) = none) →
      hex_to_rgb s = ⟨0, 0, 0⟩) ∧
    hex_to_rgb "#11223" = ⟨17, 34, 3⟩ := by
  refine ⟨?_, ?_, by decide⟩
  · intro s h
    unfold hex_to_rgb hex_to_rgb_chars
    match hs : s.toList with
    | [] => rfl
    | c :: rest =>
      have hc : c.toNat ≠ 35 := h c (by rw [hs]; rfl)
      simp [hc]
  · intro s h
    unfold hex_to_rgb hex_to_rgb_chars
    match hs : s.toList with
    | [] => rfl
    | c :: rest =>
      by_cases hc : c.toNat = 35
      · have hb : hexBody s = (c :: rest).dropWhile (fun d => d.toNat = 35) := by
          unfold hexBody; rw [hs]
        rw [hb] at h
        simp only [hc, if_true]
        rcases h1 : pyIntHexChars (pySlice ((c :: rest).dropWhile fun d => d.toNat = 35) 0 2) with _ | r <;>
          rcases h2 : pyIntHexChars (pySlice ((c :: rest).dropWhile fun d => d.toNat = 35) 2 4) with _ | g <;>
          rcases h3 : pyIntHexChars (pySlice ((c :: rest).dropWhile fun d => d.toNat = 35) 4 6) with _ | b <;>
          simp_all
      · simp [hc]

/-- Bounds check carried by `stitchOfItem`: any stitch it emits went
through the range guard of the source. -/
theorem stitchOfItem_mem_bounds (g : GridSpec) (color : Option String)
    (it : DrawItem) (s : Stitch) (hs : s ∈ stitchOfItem g color it) :
    0 ≤ s.row ∧ s.row < g.rows ∧ 0 ≤ s.col ∧ s.col < g.columns := by
  cases it with
  | line p1 p2 =>
    simp only [stitchOfItem] at hs
    split at hs
    · rename_i h
      simp only [List.mem_singleton] at hs
      subst hs
      exact ⟨h.2.2.1, h.2.2.2, h.1, h.2.1⟩
    · simp at hs
  | rect x0 y0 x1 y1 =>
    simp only [stitchOfItem] at hs
    split at hs
    · rename_i h
      simp only [List.mem_singleton] at hs
      subst hs
      exact ⟨h.2.2.1, h.2.2.2, h.1, h.2.1⟩
    · simp at hs
  | curve p1 p2 p3 p4 => simp [stitchOfItem] at hs

/-- Page whose grid was detected exposes the raw `detect_grid` result. -/
theorem parse_page_grid_eq (drawings : List Drawing) (td : TextDict) :
    (parse_page drawings td).grid = detect_grid drawings := rfl

/-- Stitches of a page with a detected grid are `extract_stitches` on it. -/
theorem parse_page_stitches_eq (drawings : List Drawing) (td : TextDict)
    (g : GridSpec) (h : detect_grid drawings = some g) :
    (parse_page drawings td).stitches = extract_stitches drawings g := by
  unfold parse_page
  rw [h]

/-- C1 amended: on every page with a detected grid, every stitch position
satisfies the invariant 0 ≤ row < rows and 0 ≤ col < columns; the
counterexample `extracted_symbol_out_of_range` shows the source records
symbol entries without this bounds check, so the invariant holds for
stitches only. -/
theorem stitch_positions_within_grid (drawings : List Drawing) (td : TextDict)
    (g : GridSpec) (hg : (parse_page drawings td).grid = some g) :
    ∀ s ∈ (parse_page drawings td).stitches,
      0 ≤ s.row ∧ s.row < g.rows ∧ 0 ≤ s.col ∧ s.col < g.columns := by
  intro s hs
  rw [parse_page_grid_eq] at hg
  rw [parse_page_stitches_eq drawings td g hg] at hs
  unfold extract_stitches at hs
  split at hs
  · simp at hs
  · split at hs
    · simp at hs
    · rw [List.mem_flatMap] at hs
      obtain ⟨d, _, hs⟩ := hs
      rw [List.mem_flatMap] at hs
      obtain ⟨it, _, hs⟩ := hs
      exact stitchOfItem_mem_bounds g (parse_color d.fill) it s hs

/-- Symbols of a page are extracted against the detected grid. -/
theorem parse_page_symbols_eq (drawings : List Drawing) (td : TextDict) :
    (parse_page drawings td).symbols = extract_symbols td (detect_grid drawings) := rfl

/-- C1 witness: a page made of the scenario A grid lines plus one short
diagonal line item whose first endpoint (15, 25) lies in cell
row 2, col 1; the grid is detected, the stitch is recorded and the bound
theorem applies to it. -/
theorem stitch_positions_within_grid_witness :
    0 ≤ (⟨2, 1, .cross, none⟩ : Stitch).row ∧
    (⟨2, 1, .cross, none⟩ : Stitch).row < gridSpecA.rows ∧
    0 ≤ (⟨2, 1, .cross, none⟩ : Stitch).col ∧
    (⟨2, 1, .cross, none⟩ : Stitch).col < gridSpecA.columns := by
  have hgrid : detect_grid (⟨none, [DrawItem.line ⟨15, 25⟩ ⟨17, 27⟩]⟩ :: scenarioA) =
      some gridSpecA := by
    norm_num [detect_grid, filteredH, filteredV, classifyH, classifyV,
      scenarioA, hItem, vItem, analyze_grid_lines, sortByY, sortByX, insertByY,
      insertByX, gaps, find_common_spacing, dedupFirstAux, countQ, roundTo1,
      roundHalfEven, gridSpecA, List.flatMap, List.filterMap, List.filter,
      List.foldr, List.foldl]
  have hmem : (⟨2, 1, .cross, none⟩ : Stitch) ∈
      (parse_page (⟨none, [DrawItem.line ⟨15, 25⟩ ⟨17, 27⟩]⟩ :: scenarioA) ⟨[]⟩).stitches := by
    rw [parse_page_stitches_eq _ _ gridSpecA hgrid]
    norm_num [extract_stitches, stitchOfItem, scenarioA, hItem, vItem, pyInt,
      gridSpecA, parse_color, List.flatMap]
  exact stitch_positions_within_grid _ ⟨[]⟩ gridSpecA
    (by rw [parse_page_grid_eq, hgrid]) _ hmem

/-- Text dictionary with a single one-character span whose bounding box
centre (101, 101) lies outside the scenario A grid. -/
def tdOutside : TextDict := ⟨[⟨0, [⟨[⟨"X", some (100, 100, 102, 102)⟩]⟩]⟩]⟩

/-- C1 counterexample: on a page with a detected 5 by 5 grid, a span
centred at (101, 101) is recorded as a symbol entry with row = col = 10,
outside the grid, so the claimed invariant fails for symbol entries. -/
theorem extracted_symbol_out_of_range :
    (parse_page scenarioA tdOutside).grid = some gridSpecA ∧
    (parse_page scenarioA tdOutside).symbols = [⟨"X", 10, 10, (100, 100, 102, 102)⟩] ∧
    gridSpecA.rows = 5 ∧ gridSpecA.columns = 5 ∧
    ¬ ∀ s ∈ (parse_page scenarioA tdOutside).symbols,
        0 ≤ s.row ∧ s.row < gridSpecA.rows ∧ 0 ≤ s.col ∧ s.col < gridSpecA.columns := by
  have hg : detect_grid scenarioA = some gridSpecA := by
    norm_num [detect_grid, filteredH, filteredV, classifyH, classifyV, scenarioA,
      hItem, vItem, analyze_grid_lines, sortByY, sortByX, insertByY, insertByX,
      gaps, find_common_spacing, dedupFirstAux, countQ, roundTo1, roundHalfEven,
      gridSpecA, List.flatMap, List.filterMap, List.filter, List.foldr, List.foldl]
  have hsym : extract_symbols tdOutside (some gridSpecA) =
      [⟨"X", 10, 10, (100, 100, 102, 102)⟩] := by
    norm_num [extract_symbols, symbolOfSpan, tdOutside, pyInt, gridSpecA,
      List.flatMap,
      show pyStripStr "X" = "X" from by decide,
      show pyIsspaceStr "X" = false from by decide,
      show "X".length = 1 from by decide]
  have hsympage : (parse_page scenarioA tdOutside).symbols =
      [⟨"X", 10, 10, (100, 100, 102, 102)⟩] := by
    rw [parse_page_symbols_eq, hg, hsym]
  refine ⟨by rw [parse_page_grid_eq, hg], hsympage, by rfl, by rfl, ?_⟩
  intro hall
  have h10 := hall ⟨"X", 10, 10, (100, 100, 102, 102)⟩ (by rw [hsympage]; exact List.mem_singleton.mpr rfl)
  exact absurd h10.2.1 (by decide)

/-- C2 amended: the cell index is computed with Python `int()`, which
truncates toward zero (it agrees with floor only for nonnegative
quotients); a line or rectangle whose truncated (row, col) falls outside
the grid is rejected, not clamped, and is not recorded as a stitch — but
symbol entries are recorded with no range check at all.  The
counterexample `truncation_not_floor_on_negative` shows both divergences
from the claim. -/
theorem cell_mapping_truncates_and_rejects :
    (∀ (g : GridSpec) (fill : Option ColorValue) (p1 p2 : Point),
      g.detected = true → ¬ g.cell_width = 0 → ¬ g.cell_height = 0 →
      extract_stitches [⟨fill, [.line p1 p2]⟩] g =
        if 0 ≤ pyInt ((p1.x - g.left) / g.cell_width) ∧
            pyInt ((p1.x - g.left) / g.cell_width) < g.columns ∧
            0 ≤ pyInt ((p1.y - g.top) / g.cell_height) ∧
            pyInt ((p1.y - g.top) / g.cell_height) < g.rows then
          [⟨pyInt ((p1.y - g.top) / g.cell_height),
            pyInt ((p1.x - g.left) / g.cell_width), .cross, parse_color fill⟩]
        else []) ∧
    (∀ (g : GridSpec) (fill : Option ColorValue) (x0 y0 x1 y1 : ℚ),
      g.detected = true → ¬ g.cell_width = 0 → ¬ g.cell_height = 0 →
      extract_stitches [⟨fill, [.rect x0 y0 x1 y1]⟩] g =
        if 0 ≤ pyInt (((x0 + x1) / 2 - g.left) / g.cell_width) ∧
            pyInt (((x0 + x1) / 2 - g.left) / g.cell_width) < g.columns ∧
            0 ≤ pyInt (((y0 + y1) / 2 - g.top) / g.cell_height) ∧
            pyInt (((y0 + y1) / 2 - g.top) / g.cell_height) < g.rows then
          [⟨pyInt (((y0 + y1) / 2 - g.top) / g.cell_height),
            pyInt (((x0 + x1) / 2 - g.left) / g.cell_width), .full, parse_color fill⟩]
        else []) ∧
    (∀ (g : GridSpec) (t : String) (x0 y0 x1 y1 : ℚ),
      (pyStripStr t).length = 1 → pyIsspaceStr (pyStripStr t) = false →
      0 < g.cell_width → 0 < g.cell_height →
      extract_symbols ⟨[⟨0, [⟨[⟨t, some (x0, y0, x1, y1)⟩]⟩]⟩]⟩ (some g) =
        [⟨pyStripStr t, pyInt (((y0 + y1) / 2 - g.top) / g.cell_height),
          pyInt (((x0 + x1) / 2 - g.left) / g.cell_width), (x0, y0, x1, y1)⟩]) := by
  refine ⟨?_, ?_, ?_⟩
  · intro g fill p1 p2 hdet hcw hch
    simp [extract_stitches, stitchOfItem, hdet, hcw, hch, List.flatMap]
  · intro g fill x0 y0 x1 y1 hdet hcw hch
    simp [extract_stitches, stitchOfItem, hdet, hcw, hch, List.flatMap]
  · intro g t x0 y0 x1 y1 hlen hspace hcw hch
    simp [extract_symbols, symbolOfSpan, hlen, hspace, hcw, hch, List.flatMap]

/-- C2 witness: the mapping formula applied on the scenario A grid, for a
line item starting at (15, 25), placed at row 2, col 1, and for a span
centred at (101, 101), recorded at row 10, col 10. -/
theorem cell_mapping_truncates_and_rejects_witness :
    extract_stitches [⟨none, [DrawItem.line ⟨15, 25⟩ ⟨17, 27⟩]⟩] gridSpecA =
      [⟨2, 1, .cross, none⟩] ∧
    extract_symbols ⟨[⟨0, [⟨[⟨"X", some (100, 100, 102, 102)⟩]⟩]⟩]⟩ (some gridSpecA) =
      [⟨"X", 10, 10, (100, 100, 102, 102)⟩] := by
  constructor
  · have h := cell_mapping_truncates_and_rejects.1 gridSpecA none ⟨15, 25⟩ ⟨17, 27⟩
      rfl (by norm_num [gridSpecA]) (by norm_num [gridSpecA])
    rw [h]
    norm_num [pyInt, gridSpecA, parse_color]
  · have h := cell_mapping_truncates_and_rejects.2.2 gridSpecA "X" 100 100 102 102
      (by decide) (by decide) (by norm_num [gridSpecA]) (by norm_num [gridSpecA])
    rw [h]
    norm_num [pyInt, gridSpecA,
      show pyStripStr "X" = "X" from by decide]

/-- C2 counterexample: for the point (-5, 5) on the scenario A grid the
floor of (x - left) / cellWidth is -1, outside the grid, yet the source
computes the column with `int()` (truncation toward zero), obtains 0 and
records the stitch; and a symbol centred at (101, 101), whose (row, col)
is (10, 10), far outside the 5 by 5 grid, is recorded rather than
rejected. -/
theorem truncation_not_floor_on_negative :
    ⌊((-5 : ℚ) - gridSpecA.left) / gridSpecA.cell_width⌋ = -1 ∧
    extract_stitches [⟨none, [DrawItem.line ⟨-5, 5⟩ ⟨95, 5⟩]⟩] gridSpecA =
      [⟨0, 0, .cross, none⟩] ∧
    extract_symbols tdOutside (some gridSpecA) =
      [⟨"X", 10, 10, (100, 100, 102, 102)⟩] ∧
    gridSpecA.rows = 5 ∧ gridSpecA.columns = 5 := by
  refine ⟨by norm_num [gridSpecA], ?_, ?_, rfl, rfl⟩
  · norm_num [extract_stitches, stitchOfItem, pyInt, gridSpecA, parse_color,
      List.flatMap, show (⌈-(1/2 : ℚ)⌉ : Int) = 0 from by norm_num]
  · norm_num [extract_symbols, symbolOfSpan, tdOutside, pyInt, gridSpecA,
      List.flatMap,
      show pyStripStr "X" = "X" from by decide,
      show pyIsspaceStr "X" = false from by decide,
      show "X".length = 1 from by decide]

/-- C8 witness: the soft-fail theorem applied to a string without a
leading hash and to a string with a non-hex channel slice. -/
theorem hex_to_rgb_soft_fail_witness :
    hex_to_rgb "112233" = ⟨0, 0, 0⟩ ∧ hex_to_rgb "#zz3344" = ⟨0, 0, 0⟩ := by
  constructor
  · exact hex_to_rgb_soft_fail.1 "112233" (by decide)
  · exact hex_to_rgb_soft_fail.2.1 "#zz3344" (Or.inl (by decide))

/-- List flat-map over a function that is empty on every element. -/
theorem flatMap_nil_of_forall {α β : Type} (l : List α) (f : α → List β)
    (h : ∀ a ∈ l, f a = []) : l.flatMap f = [] := by
  induction l with
  | nil => rfl
  | cons a l ih =>
    rw [List.flatMap_cons, h a (List.mem_cons_self a l), List.nil_append]
    exact ih fun b hb => h b (List.mem_cons_of_mem a hb)

/-- Without a grid, `symbolOfSpan` records nothing. -/
theorem symbolOfSpan_none (span : Span) : symbolOfSpan none span = [] := by
  unfold symbolOfSpan
  split
  · rename_i heq
    cases heq
  · simp

/-- Without a grid, `extract_symbols` returns the empty list. -/
theorem extract_symbols_none (td : TextDict) : extract_symbols td none = [] := by
  unfold extract_symbols
  apply flatMap_nil_of_forall
  intro block _
  split
  · apply flatMap_nil_of_forall
    intro line _
    apply flatMap_nil_of_forall
    intro span _
    exact symbolOfSpan_none span
  · rfl

/-- Stitches of a page whose grid was not detected stay empty. -/
theorem parse_page_stitches_none (drawings : List Drawing) (td : TextDict)
    (h : detect_grid drawings = none) :
    (parse_page drawings td).stitches = [] := by
  unfold parse_page
  rw [h]

/-- C6: whenever either filtered line set has fewer than 5 lines, the
page reports no grid and both its stitches and its symbols are empty; the
embedding is total, so no error is raised. -/
theorem undetected_grid_page_empty (drawings : List Drawing) (td : TextDict)
    (h : (filteredH drawings).length < 5 ∨ (filteredV drawings).length < 5) :
    (parse_page drawings td).grid = none ∧
    (parse_page drawings td).stitches = [] ∧
    (parse_page drawings td).symbols = [] := by
  have hdg : detect_grid drawings = none := by
    unfold detect_grid
    rw [if_neg]
    intro hc
    rcases h with h1 | h1
    · exact absurd hc.1 (by omega)
    · exact absurd hc.2 (by omega)
  refine ⟨?_, parse_page_stitches_none drawings td hdg, ?_⟩
  · rw [parse_page_grid_eq, hdg]
  · rw [parse_page_symbols_eq, hdg, extract_symbols_none]

/-- C6 witness: a page with no drawings but with a candidate symbol span
yields no grid, no stitches and no symbols. -/
theorem undetected_grid_page_empty_witness :
    (parse_page [] tdOutside).grid = none ∧
    (parse_page [] tdOutside).stitches = [] ∧
    (parse_page [] tdOutside).symbols = [] := by
  exact undetected_grid_page_empty [] tdOutside (Or.inl (by decide))

/-- Values kept by the first-occurrence dedup come from the input list. -/
theorem mem_dedupFirstAux {α : Type} [DecidableEq α] (seen l : List α) (x : α)
    (h : x ∈ dedupFirstAux seen l) : x ∈ l := by
  induction l generalizing seen with
  | nil => simp [dedupFirstAux] at h
  | cons y ys ih =>
    unfold dedupFirstAux at h
    split at h
    · exact List.mem_cons_of_mem y (ih _ h)
    · rcases List.mem_cons.mp h with h1 | h1
      · exact h1 ▸ List.mem_cons_self y ys
      · exact List.mem_cons_of_mem y (ih _ h1)

/-- Every input value is either already seen or kept by the dedup. -/
theorem mem_or_mem_dedupFirstAux {α : Type} [DecidableEq α] (seen l : List α)
    (x : α) (h : x ∈ l) : x ∈ seen ∨ x ∈ dedupFirstAux seen l := by
  induction l generalizing seen with
  | nil => simp at h
  | cons y ys ih =>
    unfold dedupFirstAux
    rcases List.mem_cons.mp h with h1 | h1
    · subst h1
      split
      · left; assumption
      · right; exact List.mem_cons_self x _
    · split
      · exact ih _ h1
      · rcases ih (y :: seen) h1 with h2 | h2
        · rcases List.mem_cons.mp h2 with h3 | h3
          · right; exact h3 ▸ List.mem_cons_self y _
          · left; exact h3
        · right; exact List.mem_cons_of_mem y h2

/-- The fold of `find_common_spacing` returns the start value or a list
element, whose count is maximal among the start value and the list; the
first maximal value wins ties, matching Python `max` over dict items. -/
theorem foldl_maxBy_spec (f : ℚ → Nat) (ks : List ℚ) (k : ℚ) :
    (ks.foldl (fun best k2 => if f best < f k2 then k2 else best) k = k ∨
      ks.foldl (fun best k2 => if f best < f k2 then k2 else best) k ∈ ks) ∧
    f k ≤ f (ks.foldl (fun best k2 => if f best < f k2 then k2 else best) k) ∧
    ∀ v ∈ ks, f v ≤ f (ks.foldl (fun best k2 => if f best < f k2 then k2 else best) k) := by
  induction ks generalizing k with
  | nil => exact ⟨Or.inl rfl, le_refl _, by simp⟩
  | cons a ks ih =>
    have step : (a :: ks).foldl (fun best k2 => if f best < f k2 then k2 else best) k =
        ks.foldl (fun best k2 => if f best < f k2 then k2 else best)
          (if f k < f a then a else k) := rfl
    obtain ⟨ihmem, ihstart, ihall⟩ := ih (if f k < f a then a else k)
    have hks : f k ≤ f (if f k < f a then a else k) := by
      split
      · omega
      · exact le_refl _
    have has : f a ≤ f (if f k < f a then a else k) := by
      split
      · exact le_refl _
      · omega
    refine ⟨?_, ?_, ?_⟩
    · rw [step]
      rcases ihmem with h | h
      · rw [h]
        split
        · right; exact List.mem_cons_self a ks
        · left; rfl
      · right; exact List.mem_cons_of_mem a h
    · rw [step]; exact le_trans hks ihstart
    · intro v hv
      rw [step]
      rcases List.mem_cons.mp hv with h | h
      · subst h
        exact le_trans has ihstart
      · exact ihall v h

/-- Computation rule of `find_common_spacing` on a nonempty list. -/
theorem find_common_spacing_cons (s : ℚ) (ss : List ℚ) :
    find_common_spacing (s :: ss) =
      (dedupFirstAux [roundTo1 s] (List.map roundTo1 ss)).foldl
        (fun best k2 => if countQ (List.map roundTo1 (s :: ss)) best <
            countQ (List.map roundTo1 (s :: ss)) k2 then k2 else best)
        (roundTo1 s) := rfl

/-- C4: for every nonempty gap sequence, the estimated cell dimension is
one of the gap values rounded to one decimal place and its bucket count
is maximal among all buckets; and in `analyze_grid_lines`, whenever the
mode estimate is zero while the corresponding row or column count is
positive, the cell dimension is the bounds span divided by that count. -/
theorem spacing_mode_and_fallback :
    (∀ (spacings : List ℚ), spacings ≠ [] →
      find_common_spacing spacings ∈ spacings.map roundTo1 ∧
      ∀ v ∈ spacings.map roundTo1,
        countQ (spacings.map roundTo1) v ≤
          countQ (spacings.map roundTo1) (find_common_spacing spacings)) ∧
    (∀ (h_lines : List HLine) (v_lines : List VLine),
      (find_common_spacing (gaps ((sortByX v_lines).map fun l => l.x)) = 0 →
        0 < (v_lines.length : Int) - 1 →
        (analyze_grid_lines h_lines v_lines).cell_width =
          ((analyze_grid_lines h_lines v_lines).right -
            (analyze_grid_lines h_lines v_lines).left) /
            (((analyze_grid_lines h_lines v_lines).columns : ℚ))) ∧
      (find_common_spacing (gaps ((sortByY h_lines).map fun l => l.y)) = 0 →
        0 < (h_lines.length : Int) - 1 →
        (analyze_grid_lines h_lines v_lines).cell_height =
          ((analyze_grid_lines h_lines v_lines).bottom -
            (analyze_grid_lines h_lines v_lines).top) /
            (((analyze_grid_lines h_lines v_lines).rows : ℚ)))) := by
  constructor
  · intro spacings hne
    match spacings with
    | s :: ss =>
      rw [find_common_spacing_cons]
      obtain ⟨hmem, hstart, hall⟩ := foldl_maxBy_spec
        (countQ (List.map roundTo1 (s :: ss)))
        (dedupFirstAux [roundTo1 s] (List.map roundTo1 ss)) (roundTo1 s)
      constructor
      · rcases hmem with h | h
        · rw [h, List.map_cons]
          exact List.mem_cons_self _ _
        · rw [List.map_cons]
          exact List.mem_cons_of_mem _ (mem_dedupFirstAux _ _ _ h)
      · intro v hv
        rw [List.map_cons] at hv
        rcases List.mem_cons.mp hv with h | h
        · exact h ▸ hstart
        · rcases mem_or_mem_dedupFirstAux [roundTo1 s] (List.map roundTo1 ss) v h with h2 | h2
          · rcases List.mem_singleton.mp h2 with rfl
            exact hstart
          · exact hall v h2
  · intro h_lines v_lines
    constructor
    · intro hfcs hcols
      unfold analyze_grid_lines
      simp only []
      have h0 : (if (gaps ((sortByX v_lines).map fun l => l.x)).isEmpty then (0 : ℚ)
          else find_common_spacing (gaps ((sortByX v_lines).map fun l => l.x))) = 0 := by
        split
        · rfl
        · exact hfcs
      rw [h0]
      rw [if_pos ⟨rfl, hcols⟩]
    · intro hfcs hrows
      unfold analyze_grid_lines
      simp only []
      have h0 : (if (gaps ((sortByY h_lines).map fun l => l.y)).isEmpty then (0 : ℚ)
          else find_common_spacing (gaps ((sortByY h_lines).map fun l => l.y))) = 0 := by
        split
        · rfl
        · exact hfcs
      rw [h0]
      rw [if_pos ⟨rfl, hrows⟩]

/-- Six vertical lines spaced 1/100 apart: every gap rounds to 0.0, so
the mode estimate is zero and the fallback fires. -/
def vLinesTiny : List VLine :=
  [⟨0, 0, 0, 0⟩, ⟨1/100, 0, 0, 0⟩, ⟨2/100, 0, 0, 0⟩,
   ⟨3/100, 0, 0, 0⟩, ⟨4/100, 0, 0, 0⟩, ⟨5/100, 0, 0, 0⟩]

/-- C4 witness: the mode property on the gaps 10, 10, 7 (checking the
bucket count of the rounded gap 7 against the returned mode) and the
zero-mode fallback on six lines spaced 1/100 apart. -/
theorem spacing_mode_and_fallback_witness :
    (find_common_spacing [10, 10, 7] ∈ ([10, 10, 7] : List ℚ).map roundTo1 ∧
      countQ (([10, 10, 7] : List ℚ).map roundTo1) (roundTo1 7) ≤
        countQ (([10, 10, 7] : List ℚ).map roundTo1) (find_common_spacing [10, 10, 7])) ∧
    (analyze_grid_lines [] vLinesTiny).cell_width =
      ((analyze_grid_lines [] vLinesTiny).right -
        (analyze_grid_lines [] vLinesTiny).left) /
        (((analyze_grid_lines [] vLinesTiny).columns : ℚ)) := by
  refine ⟨⟨(spacing_mode_and_fallback.1 [10, 10, 7] (by simp)).1,
    (spacing_mode_and_fallback.1 [10, 10, 7] (by simp)).2 (roundTo1 7)
      (List.mem_map_of_mem roundTo1 (by simp))⟩,
    (spacing_mode_and_fallback.2 [] vLinesTiny).1 ?_ ?_⟩
  · norm_num [vLinesTiny, sortByX, insertByX, gaps, find_common_spacing,
      dedupFirstAux, countQ, roundTo1, roundHalfEven, List.foldr, List.foldl,
      List.filter]
  · norm_num [vLinesTiny]

/-- Truthy resolved fill colors of the drawings, in drawing order: the
stream of colors the `extract_colors` loop considers for insertion. -/
def resolvedFills (drawings : List Drawing) : List String :=
  drawings.filterMap fun d =>
    match parse_color d.fill with
    | some s => if s = "" then none else some s
    | none => none

/-- The dedup only consults membership of the seen list. -/
theorem dedupFirstAux_congr {α : Type} [DecidableEq α] (seen1 seen2 l : List α)
    (h : ∀ x, x ∈ seen1 ↔ x ∈ seen2) :
    dedupFirstAux seen1 l = dedupFirstAux seen2 l := by
  induction l generalizing seen1 seen2 with
  | nil => rfl
  | cons x xs ih =>
    unfold dedupFirstAux
    by_cases hx : x ∈ seen1
    · rw [if_pos hx, if_pos ((h x).mp hx)]
      exact ih seen1 seen2 h
    · rw [if_neg hx, if_neg (fun hc => hx ((h x).mpr hc))]
      refine congrArg _ (ih (x :: seen1) (x :: seen2) fun y => ?_)
      simp [h y]

/-- The dedup result has no duplicates and avoids the seen list. -/
theorem dedupFirstAux_nodup {α : Type} [DecidableEq α] (l seen : List α) :
    (dedupFirstAux seen l).Nodup ∧ ∀ x ∈ dedupFirstAux seen l, x ∉ seen := by
  induction l generalizing seen with
  | nil => exact ⟨List.nodup_nil, by simp [dedupFirstAux]⟩
  | cons x xs ih =>
    unfold dedupFirstAux
    split
    · exact ih seen
    · rename_i hx
      obtain ⟨ihn, ihs⟩ := ih (x :: seen)
      refine ⟨List.nodup_cons.mpr ⟨fun hc => (ihs x hc) (List.mem_cons_self x seen), ihn⟩, ?_⟩
      intro y hy
      rcases List.mem_cons.mp hy with h1 | h1
      · exact h1 ▸ hx
      · exact fun hc => (ihs y h1) (List.mem_cons_of_mem x hc)

/-- Computation rule of the dedup on a cons cell. -/
theorem dedupFirstAux_cons {α : Type} [DecidableEq α] (seen : List α) (x : α) (xs : List α) :
    dedupFirstAux seen (x :: xs) =
      if x ∈ seen then dedupFirstAux seen xs else x :: dedupFirstAux (x :: seen) xs := rfl

/-- Loop invariant of `extract_colors`: starting from any accumulator,
the fold appends exactly the first occurrences of the resolved colors not
yet seen, in order, together with their RGB values. -/
theorem extract_colors_foldl (ds : List Drawing) (out : List ColorEntry) (seen : List String) :
    ds.foldl extract_colors_step (out, seen) =
      (out ++ (dedupFirstAux seen (resolvedFills ds)).map fun h => ⟨h, hex_to_rgb h⟩,
       seen ++ dedupFirstAux seen (resolvedFills ds)) := by
  induction ds generalizing out seen with
  | nil => simp [resolvedFills, dedupFirstAux]
  | cons d ds ih =>
    rw [List.foldl_cons]
    cases hc : parse_color d.fill with
    | none =>
      have hstep : extract_colors_step (out, seen) d = (out, seen) := by
        unfold extract_colors_step
        rw [hc]
      have hr : resolvedFills (d :: ds) = resolvedFills ds := by
        simp [resolvedFills, hc]
      rw [hstep, hr, ih]
    | some c =>
      by_cases hce : c = ""
      · have hstep : extract_colors_step (out, seen) d = (out, seen) := by
          unfold extract_colors_step
          rw [hc]
          simp [hce]
        have hr : resolvedFills (d :: ds) = resolvedFills ds := by
          simp [resolvedFills, hc, hce]
        rw [hstep, hr, ih]
      · have hr : resolvedFills (d :: ds) = c :: resolvedFills ds := by
          simp [resolvedFills, hc, hce]
        by_cases hmem : c ∈ seen
        · have hstep : extract_colors_step (out, seen) d = (out, seen) := by
            unfold extract_colors_step
            rw [hc]
            simp [hmem]
          have hd : dedupFirstAux seen (resolvedFills (d :: ds)) =
              dedupFirstAux seen (resolvedFills ds) := by
            rw [hr, dedupFirstAux_cons, if_pos hmem]
          rw [hstep, hd, ih]
        · have hstep : extract_colors_step (out, seen) d =
              (out ++ [⟨c, hex_to_rgb c⟩], seen ++ [c]) := by
            unfold extract_colors_step
            rw [hc]
            simp [hce, hmem]
          have hd : dedupFirstAux seen (resolvedFills (d :: ds)) =
              c :: dedupFirstAux (seen ++ [c]) (resolvedFills ds) := by
            rw [hr, dedupFirstAux_cons, if_neg hmem]
            refine congrArg _ (dedupFirstAux_congr _ _ _ fun y => ?_)
            simp [or_comm]
          rw [hstep, ih, hd]
          simp

/-- C10: page-local colors are exactly the first occurrences of the
truthy resolved fill colors in drawing order (hence each hex appears at
most once), and a drawing whose fill is absent or resolves to `None`
contributes no entry. -/
theorem extract_colors_first_seen_dedup :
    (∀ drawings : List Drawing,
      extract_colors drawings =
        (dedupFirstAux [] (resolvedFills drawings)).map fun h => ⟨h, hex_to_rgb h⟩) ∧
    (∀ drawings : List Drawing,
      ((extract_colors drawings).map fun c => c.hex).Nodup) ∧
    (∀ (ds1 ds2 : List Drawing) (d : Drawing), parse_color d.fill = none →
      extract_colors (ds1 ++ d :: ds2) = extract_colors (ds1 ++ ds2)) := by
  have heq : ∀ drawings : List Drawing,
      extract_colors drawings =
        (dedupFirstAux [] (resolvedFills drawings)).map fun h => ⟨h, hex_to_rgb h⟩ := by
    intro drawings
    unfold extract_colors
    rw [extract_colors_foldl]
    simp
  refine ⟨heq, ?_, ?_⟩
  · intro drawings
    rw [heq]
    rw [List.map_map]
    have : ((fun c : ColorEntry => c.hex) ∘ fun h => (⟨h, hex_to_rgb h⟩ : ColorEntry)) = id := by
      funext h
      rfl
    rw [this, List.map_id]
    exact (dedupFirstAux_nodup (resolvedFills drawings) []).1
  · intro ds1 ds2 d hd
    rw [heq, heq]
    have : resolvedFills (ds1 ++ d :: ds2) = resolvedFills (ds1 ++ ds2) := by
      unfold resolvedFills
      rw [List.filterMap_append, List.filterMap_append, List.filterMap_cons]
      rw [hd]
    rw [this]

/-- C10 witness: a duplicate hex and a fill-less drawing in the middle;
the fill-less drawing contributes nothing and the duplicate is kept once,
in first-seen order. -/
theorem extract_colors_first_seen_dedup_witness :
    extract_colors [⟨some (.strc "#112233"), []⟩, ⟨none, []⟩,
        ⟨some (.strc "#445566"), []⟩, ⟨some (.strc "#112233"), []⟩] =
      [⟨"#112233", ⟨17, 34, 51⟩⟩, ⟨"#445566", ⟨68, 85, 102⟩⟩] := by
  have h := extract_colors_first_seen_dedup.2.2 [⟨some (.strc "#112233"), []⟩]
    [⟨some (.strc "#445566"), []⟩, ⟨some (.strc "#112233"), []⟩] ⟨none, []⟩ rfl
  have hshow : extract_colors [⟨some (.strc "#112233"), []⟩, ⟨none, []⟩,
        ⟨some (.strc "#445566"), []⟩, ⟨some (.strc "#112233"), []⟩] =
      extract_colors ([⟨some (.strc "#112233"), []⟩] ++ ⟨none, []⟩ ::
        [⟨some (.strc "#445566"), []⟩, ⟨some (.strc "#112233"), []⟩]) := rfl
  rw [hshow, h]
  decide

/-- Membership after a set insertion. -/
theorem mem_insertSet (s : List String) (x y : String) :
    y ∈ insertSet s x ↔ y ∈ s ∨ y = x := by
  unfold insertSet
  split
  · rename_i hx
    constructor
    · exact Or.inl
    · rintro (h | rfl)
      · exact h
      · exact hx
  · simp

/-- Set insertion preserves distinctness. -/
theorem nodup_insertSet (s : List String) (x : String) (h : s.Nodup) :
    (insertSet s x).Nodup := by
  unfold insertSet
  split
  · exact h
  · rename_i hx
    simp [List.nodup_append, h, hx]

/-- Membership in the per-page color accumulation. -/
theorem addColors_mem (cs : List ColorEntry) (acc : List String) (y : String) :
    y ∈ cs.foldl (fun a c => insertSet a c.hex) acc ↔
      y ∈ acc ∨ ∃ c ∈ cs, c.hex = y := by
  induction cs generalizing acc with
  | nil => simp
  | cons c cs ih =>
    rw [List.foldl_cons, ih, mem_insertSet]
    constructor
    · rintro ((h | h) | ⟨c2, hc2, h⟩)
      · exact Or.inl h
      · exact Or.inr ⟨c, List.mem_cons_self c cs, h.symm⟩
      · exact Or.inr ⟨c2, List.mem_cons_of_mem c hc2, h⟩
    · rintro (h | ⟨c2, hc2, h⟩)
      · exact Or.inl (Or.inl h)
      · rcases List.mem_cons.mp hc2 with h1 | h1
        · exact Or.inl (Or.inr (h1 ▸ h.symm))
        · exact Or.inr ⟨c2, h1, h⟩

/-- Distinctness is preserved by the per-page color accumulation. -/
theorem addColors_nodup (cs : List ColorEntry) (acc : List String) (h : acc.Nodup) :
    (cs.foldl (fun a c => insertSet a c.hex) acc).Nodup := by
  induction cs generalizing acc with
  | nil => exact h
  | cons c cs ih => exact ih _ (nodup_insertSet acc c.hex h)

/-- Membership in the document-wide color set. -/
theorem collect_colors_go_mem (pages : List PageData) (acc : List String) (y : String) :
    y ∈ pages.foldl (fun acc p => p.colors.foldl (fun a c => insertSet a c.hex) acc) acc ↔
      y ∈ acc ∨ ∃ p ∈ pages, ∃ c ∈ p.colors, c.hex = y := by
  induction pages generalizing acc with
  | nil => simp
  | cons p pages ih =>
    rw [List.foldl_cons, ih, addColors_mem]
    constructor
    · rintro ((h | ⟨c, hc, h⟩) | ⟨p2, hp2, hrest⟩)
      · exact Or.inl h
      · exact Or.inr ⟨p, List.mem_cons_self p pages, c, hc, h⟩
      · exact Or.inr ⟨p2, List.mem_cons_of_mem p hp2, hrest⟩
    · rintro (h | ⟨p2, hp2, hrest⟩)
      · exact Or.inl (Or.inl h)
      · rcases List.mem_cons.mp hp2 with h1 | h1
        · exact Or.inl (Or.inr (h1 ▸ hrest))
        · exact Or.inr ⟨p2, h1, hrest⟩

/-- The document-wide color set has no duplicates. -/
theorem collect_colors_go_nodup (pages : List PageData) (acc : List String)
    (h : acc.Nodup) :
    (pages.foldl (fun acc p => p.colors.foldl (fun a c => insertSet a c.hex) acc) acc).Nodup := by
  induction pages generalizing acc with
  | nil => exact h
  | cons p pages ih => exact ih _ (addColors_nodup p.colors acc h)

/-- Hex fields of the organised palette are the input colors. -/
theorem organize_color_palette_from_hex (i : Nat) (cs : List String) :
    (organize_color_palette_from i cs).map (fun e => e.hex) = cs := by
  induction cs generalizing i with
  | nil => rfl
  | cons c cs ih => simp [organize_color_palette_from, ih]

/-- Length of the organised palette. -/
theorem organize_color_palette_from_length (i : Nat) (cs : List String) :
    (organize_color_palette_from i cs).length = cs.length := by
  induction cs generalizing i with
  | nil => rfl
  | cons c cs ih => simp [organize_color_palette_from, ih]

/-- Identifiers of the organised palette are sequential from `i + 1`. -/
theorem organize_color_palette_from_id (i : Nat) (cs : List String) :
    (organize_color_palette_from i cs).map (fun e => e.id) =
      List.range' (i + 1) cs.length := by
  induction cs generalizing i with
  | nil => rfl
  | cons c cs ih =>
    rw [show (c :: cs).length = cs.length + 1 from rfl, List.range'_succ]
    simp [organize_color_palette_from, ih]

/-- C9: the document-wide palette holds exactly one entry per distinct
hex color occurring across all pages, with sequential integer ids
starting at 1; in particular two pages sharing hex "#112233" yield a
single palette entry for it. -/
theorem color_palette_unique_sequential :
    (∀ inputs : List (List Drawing × TextDict),
      (((parse inputs).color_palette.map fun e => e.hex).Nodup) ∧
      (∀ h : String,
        h ∈ (parse inputs).color_palette.map (fun e => e.hex) ↔
          ∃ p ∈ (parse inputs).pages, ∃ c ∈ p.colors, c.hex = h) ∧
      (parse inputs).color_palette.map (fun e => e.id) =
        List.range' 1 (parse inputs).color_palette.length) ∧
    (parse [([⟨some (.strc "#112233"), []⟩], ⟨[]⟩),
            ([⟨some (.strc "#112233"), []⟩], ⟨[]⟩)]).color_palette =
      [⟨1, "#112233", ⟨17, 34, 51⟩⟩] := by
  constructor
  · intro inputs
    have hpal : (parse inputs).color_palette =
        organize_color_palette (collect_colors (parse inputs).pages) := rfl
    have hhex : (parse inputs).color_palette.map (fun e => e.hex) =
        collect_colors (parse inputs).pages := by
      rw [hpal]
      exact organize_color_palette_from_hex 0 _
    refine ⟨?_, ?_, ?_⟩
    · rw [hhex]
      exact collect_colors_go_nodup _ [] List.nodup_nil
    · intro h
      rw [hhex]
      unfold collect_colors
      rw [collect_colors_go_mem]
      simp
    · rw [hpal]
      have hlen : (organize_color_palette (collect_colors (parse inputs).pages)).length =
          (collect_colors (parse inputs).pages).length :=
        organize_color_palette_from_length 0 _
      rw [hlen]
      exact organize_color_palette_from_id 0 _
  · decide

/-- Value of a big-endian hexadecimal digit string (proof-side measure
for the round-trip theorems). -/
def hexVal : List Char → Nat
  | [] => 0
  | c :: cs => (hexDigitVal c).getD 0 * 16 ^ cs.length + hexVal cs

/-- All characters of the list are hexadecimal digits. -/
def isHexList (cs : List Char) : Prop := ∀ c ∈ cs, (hexDigitVal c).isSome = true

/-- A hexadecimal digit value is below 16. -/
theorem hexDigitVal_lt (c : Char) (d : Nat) (h : hexDigitVal c = some d) : d < 16 := by
  unfold hexDigitVal at h
  split_ifs at h with h1 h2 h3 <;> injection h with h <;> omega

/-- A hexadecimal digit character is not whitespace, not a sign, not an
underscore and not a hash. -/
theorem hexDigit_char_facts (c : Char) (h : (hexDigitVal c).isSome = true) :
    py_isspace c = false ∧ c.toNat ≠ 43 ∧ c.toNat ≠ 45 ∧ c.toNat ≠ 95 ∧ c.toNat ≠ 35 := by
  unfold hexDigitVal at h
  split_ifs at h with h1 h2 h3
  · exact ⟨by simp only [py_isspace, decide_eq_false_iff_not]; omega,
      by omega, by omega, by omega, by omega⟩
  · exact ⟨by simp only [py_isspace, decide_eq_false_iff_not]; omega,
      by omega, by omega, by omega, by omega⟩
  · exact ⟨by simp only [py_isspace, decide_eq_false_iff_not]; omega,
      by omega, by omega, by omega, by omega⟩
  · simp at h

/-- Printing a digit value below 16 and reading it back is the identity. -/
theorem hexDigitVal_toHexDigit (m : Nat) (h : m < 16) :
    hexDigitVal (toHexDigit m) = some m := by
  interval_cases m <;> decide

/-- Value of an appended digit string. -/
theorem hexVal_append (xs ys : List Char) :
    hexVal (xs ++ ys) = hexVal xs * 16 ^ ys.length + hexVal ys := by
  induction xs with
  | nil => simp [hexVal]
  | cons c xs ih =>
    have hcons : ∀ (zs : List Char), hexVal (c :: zs) =
        (hexDigitVal c).getD 0 * 16 ^ zs.length + hexVal zs := fun zs => rfl
    rw [List.cons_append, hcons, hcons, ih, List.length_append, pow_add]
    ring

/-- The value of a digit string is below 16 to its length. -/
theorem hexVal_lt (cs : List Char) (h : isHexList cs) :
    hexVal cs < 16 ^ cs.length := by
  induction cs with
  | nil => simp [hexVal]
  | cons c cs ih =>
    have hc : (hexDigitVal c).isSome = true := h c (List.mem_cons_self c cs)
    obtain ⟨d, hd⟩ := Option.isSome_iff_exists.mp hc
    have hd16 : d < 16 := hexDigitVal_lt c d hd
    have hrec : hexVal cs < 16 ^ cs.length :=
      ih fun x hx => h x (List.mem_cons_of_mem c hx)
    show (hexDigitVal c).getD 0 * 16 ^ cs.length + hexVal cs < 16 ^ (cs.length + 1)
    rw [hd]
    have hmul : d * 16 ^ cs.length ≤ 15 * 16 ^ cs.length :=
      Nat.mul_le_mul_right _ (by omega)
    have hpow : 16 ^ (cs.length + 1) = 16 * 16 ^ cs.length := by ring
    simp only [Option.getD_some]
    omega

/-- Leading zeros have no value. -/
theorem hexVal_replicate_zero (m : Nat) : hexVal (List.replicate m '0') = 0 := by
  induction m with
  | zero => rfl
  | succ m ih =>
    rw [List.replicate_succ]
    have hcons : hexVal ('0' :: List.replicate m '0') =
        (hexDigitVal '0').getD 0 * 16 ^ (List.replicate m '0').length +
          hexVal (List.replicate m '0') := rfl
    rw [hcons, ih, show (hexDigitVal '0').getD 0 = 0 from by decide]
    simp

/-- Zero padding keeps the value. -/
theorem hexVal_padZero (w : Nat) (cs : List Char) :
    hexVal (padZero w cs) = hexVal cs := by
  unfold padZero
  rw [hexVal_append, hexVal_replicate_zero]
  simp

/-- Zero padding keeps digits digits. -/
theorem isHexList_padZero (w : Nat) (cs : List Char) (h : isHexList cs) :
    isHexList (padZero w cs) := by
  intro c hc
  rcases List.mem_append.mp hc with h1 | h1
  · rw [List.eq_of_mem_replicate h1]
    decide
  · exact h c h1

/-- Zero padding reaches the requested width. -/
theorem length_padZero (w : Nat) (cs : List Char) (h : cs.length ≤ w) :
    (padZero w cs).length = w := by
  unfold padZero
  rw [List.length_append, List.length_replicate]
  omega

/-- Value of the hexadecimal printing loop: the digits of `n` are placed
in front of the accumulator. -/
theorem hexVal_natToHexAux (fuel : Nat) : ∀ (n : Nat) (acc : List Char), n ≤ fuel →
    hexVal (natToHexAux fuel n acc) = n * 16 ^ acc.length + hexVal acc := by
  induction fuel with
  | zero =>
    intro n acc hn
    have : n = 0 := by omega
    subst this
    simp [natToHexAux]
  | succ fuel ih =>
    intro n acc hn
    match n with
    | 0 => simp [natToHexAux]
    | m + 1 =>
      show hexVal (natToHexAux fuel ((m + 1) / 16) (toHexDigit ((m + 1) % 16) :: acc)) = _
      rw [ih ((m + 1) / 16) _ (by omega)]
      have hcons : hexVal (toHexDigit ((m + 1) % 16) :: acc) =
          (hexDigitVal (toHexDigit ((m + 1) % 16))).getD 0 * 16 ^ acc.length + hexVal acc := rfl
      rw [hcons, hexDigitVal_toHexDigit _ (by omega), Option.getD_some]
      have hlen : (toHexDigit ((m + 1) % 16) :: acc).length = acc.length + 1 := rfl
      rw [hlen, pow_succ]
      have hdm : (m + 1) / 16 * 16 + (m + 1) % 16 = m + 1 := by omega
      calc (m + 1) / 16 * (16 ^ acc.length * 16) +
            ((m + 1) % 16 * 16 ^ acc.length + hexVal acc)
          = ((m + 1) / 16 * 16 + (m + 1) % 16) * 16 ^ acc.length + hexVal acc := by ring
        _ = (m + 1) * 16 ^ acc.length + hexVal acc := by rw [hdm]

/-- The printing loop emits hexadecimal digits. -/
theorem isHexList_natToHexAux (fuel : Nat) : ∀ (n : Nat) (acc : List Char),
    isHexList acc → isHexList (natToHexAux fuel n acc) := by
  induction fuel with
  | zero =>
    intro n acc hacc
    exact hacc
  | succ fuel ih =>
    intro n acc hacc
    match n with
    | 0 => exact hacc
    | m + 1 =>
      show isHexList (natToHexAux fuel ((m + 1) / 16) (toHexDigit ((m + 1) % 16) :: acc))
      refine ih _ _ ?_
      intro c hc
      rcases List.mem_cons.mp hc with h1 | h1
      · rw [h1, hexDigitVal_toHexDigit _ (by omega)]
        rfl
      · exact hacc c h1

/-- Width bound of the printing loop. -/
theorem length_natToHexAux (fuel : Nat) : ∀ (k n : Nat) (acc : List Char),
    n < 16 ^ k → n ≤ fuel → (natToHexAux fuel n acc).length ≤ k + acc.length := by
  induction fuel with
  | zero =>
    intro k n acc hk hn
    have : n = 0 := by omega
    subst this
    simp [natToHexAux]
  | succ fuel ih =>
    intro k n acc hk hn
    match n with
    | 0 => simp [natToHexAux]
    | m + 1 =>
      match k with
      | 0 => omega
      | j + 1 =>
        show (natToHexAux fuel ((m + 1) / 16) (toHexDigit ((m + 1) % 16) :: acc)).length ≤ _
        have hdiv : (m + 1) / 16 < 16 ^ j := by
          rw [Nat.div_lt_iff_lt_mul (by omega)]
          calc m + 1 < 16 ^ (j + 1) := hk
          _ = 16 ^ j * 16 := by ring
        have := ih j ((m + 1) / 16) (toHexDigit ((m + 1) % 16) :: acc) hdiv (by omega)
        have hlen : (toHexDigit ((m + 1) % 16) :: acc).length = acc.length + 1 := rfl
        omega

/-- Value of the hexadecimal printing. -/
theorem hexVal_natToHex (n : Nat) : hexVal (natToHex n) = n := by
  unfold natToHex
  split
  · rename_i h
    subst h
    decide
  · rw [hexVal_natToHexAux n n [] (le_refl n)]
    simp [hexVal]

/-- The printed string consists of hexadecimal digits. -/
theorem isHexList_natToHex (n : Nat) : isHexList (natToHex n) := by
  unfold natToHex
  split
  · intro c hc
    rw [List.mem_singleton.mp hc]
    decide
  · exact isHexList_natToHexAux n n [] fun c hc => absurd hc (List.not_mem_nil c)

/-- Width bound of the hexadecimal printing. -/
theorem length_natToHex (n k : Nat) (hk : 1 ≤ k) (h : n < 16 ^ k) :
    (natToHex n).length ≤ k := by
  unfold natToHex
  split
  · simpa using hk
  · have := length_natToHexAux n k n [] h (le_refl n)
    simpa using this

/-- Digit-string continuation parse: pure digits append their value. -/
theorem parseHexRest_digits (cs : List Char) : ∀ (acc : Nat), isHexList cs →
    parseHexRest acc cs = some (acc * 16 ^ cs.length + hexVal cs) := by
  induction cs with
  | nil =>
    intro acc _
    simp [parseHexRest, hexVal]
  | cons c rest ih =>
    intro acc h
    have hc : (hexDigitVal c).isSome = true := h c (List.mem_cons_self c rest)
    obtain ⟨d, hd⟩ := Option.isSome_iff_exists.mp hc
    have h95 : c.toNat ≠ 95 := (hexDigit_char_facts c hc).2.2.2.1
    unfold parseHexRest
    rw [if_neg h95, hd]
    show parseHexRest (acc * 16 + d) rest =
      some (acc * 16 ^ (c :: rest).length + hexVal (c :: rest))
    rw [ih (acc * 16 + d) fun x hx => h x (List.mem_cons_of_mem c hx)]
    have hcons : hexVal (c :: rest) = (hexDigitVal c).getD 0 * 16 ^ rest.length + hexVal rest := rfl
    have hlen : (c :: rest).length = rest.length + 1 := rfl
    rw [hcons, hd, Option.getD_some, hlen, pow_succ]
    ring_nf

/-- A nonempty digit string parses to its value. -/
theorem parseHexAll_digits (cs : List Char) (hne : cs ≠ []) (h : isHexList cs) :
    parseHexAll cs = some (hexVal cs) := by
  match cs with
  | [] => exact absurd rfl hne
  | c :: rest =>
    have hc : (hexDigitVal c).isSome = true := h c (List.mem_cons_self c rest)
    obtain ⟨d, hd⟩ := Option.isSome_iff_exists.mp hc
    show (match hexDigitVal c with
      | some d => parseHexRest d rest
      | none => none) = some (hexVal (c :: rest))
    rw [hd]
    show parseHexRest d rest = some (hexVal (c :: rest))
    rw [parseHexRest_digits rest d fun x hx => h x (List.mem_cons_of_mem c hx)]
    have hcons : hexVal (c :: rest) = (hexDigitVal c).getD 0 * 16 ^ rest.length + hexVal rest := rfl
    rw [hcons, hd, Option.getD_some]

/-- Dropping by a predicate that holds nowhere drops nothing. -/
theorem dropWhile_eq_self_of_false {p : Char → Bool} (cs : List Char)
    (h : ∀ c ∈ cs, p c = false) : cs.dropWhile p = cs := by
  cases cs with
  | nil => rfl
  | cons c rest =>
    rw [List.dropWhile_cons, h c (List.mem_cons_self c rest)]
    simp

/-- Stripping whitespace from a pure digit string is the identity. -/
theorem pyStrip_digits (cs : List Char) (h : isHexList cs) : pyStrip cs = cs := by
  unfold pyStrip
  rw [dropWhile_eq_self_of_false cs fun c hc => (hexDigit_char_facts c (h c hc)).1]
  rw [dropWhile_eq_self_of_false cs.reverse
    fun c hc => (hexDigit_char_facts c (h c (List.mem_reverse.mp hc))).1]
  exact List.reverse_reverse cs

/-- Python `int(s, 16)` on a nonempty pure digit string returns its value. -/
theorem pyIntHexChars_digits (cs : List Char) (hne : cs ≠ []) (h : isHexList cs) :
    pyIntHexChars cs = some ((hexVal cs : Int)) := by
  unfold pyIntHexChars
  rw [pyStrip_digits cs h]
  match cs with
  | [] => exact absurd rfl hne
  | c :: rest =>
    have hc : (hexDigitVal c).isSome = true := h c (List.mem_cons_self c rest)
    have h43 : c.toNat ≠ 43 := (hexDigit_char_facts c hc).2.1
    have h45 : c.toNat ≠ 45 := (hexDigit_char_facts c hc).2.2.1
    show (if c.toNat = 43 then (parseHexAll rest).map (fun n => (n : Int))
      else if c.toNat = 45 then (parseHexAll rest).map (fun n => -(n : Int))
      else (parseHexAll (c :: rest)).map (fun n => (n : Int))) =
        some ((hexVal (c :: rest) : Int))
    rw [if_neg h43, if_neg h45, parseHexAll_digits (c :: rest) (by simp) h]
    rfl

/-- Leading-hash stripping leaves a pure digit string unchanged. -/
theorem dropHash_digits (cs : List Char) (h : isHexList cs) :
    cs.dropWhile (fun d => d.toNat = 35) = cs :=
  dropWhile_eq_self_of_false cs fun c hc => by
    have h35 : c.toNat ≠ 35 := (hexDigit_char_facts c (h c hc)).2.2.2.2
    simpa using h35

/-- On a hash followed by hexadecimal digits whose three channel slices
are nonempty, `hex_to_rgb_chars` returns the slice values. -/
theorem hex_to_rgb_chars_digits (ds : List Char) (h : isHexList ds)
    (hne1 : pySlice ds 0 2 ≠ []) (hne2 : pySlice ds 2 4 ≠ []) (hne3 : pySlice ds 4 6 ≠ []) :
    hex_to_rgb_chars ('#' :: ds) =
      ⟨(hexVal (pySlice ds 0 2) : Int), (hexVal (pySlice ds 2 4) : Int),
        (hexVal (pySlice ds 4 6) : Int)⟩ := by
  have hsub1 : isHexList (pySlice ds 0 2) :=
    fun c hc => h c (List.drop_subset 0 ds (List.take_subset _ _ hc))
  have hsub2 : isHexList (pySlice ds 2 4) :=
    fun c hc => h c (List.drop_subset 2 ds (List.take_subset _ _ hc))
  have hsub3 : isHexList (pySlice ds 4 6) :=
    fun c hc => h c (List.drop_subset 4 ds (List.take_subset _ _ hc))
  have hp1 := pyIntHexChars_digits _ hne1 hsub1
  have hp2 := pyIntHexChars_digits _ hne2 hsub2
  have hp3 := pyIntHexChars_digits _ hne3 hsub3
  have hdrop : ('#' :: ds).dropWhile (fun d => d.toNat = 35) = ds := by
    rw [List.dropWhile_cons, if_pos (by decide)]
    exact dropHash_digits ds h
  simp only [hex_to_rgb_chars, hdrop]
  rw [if_pos (show ('#').toNat = 35 from by decide)]
  rw [hp1, hp2, hp3]

/-- Slice values of a 6-digit string in terms of its total value. -/
theorem hexVal_slices (ds : List Char) (h6 : ds.length = 6) (h : isHexList ds) :
    hexVal (pySlice ds 0 2) = hexVal ds / 65536 ∧
    hexVal (pySlice ds 2 4) = hexVal ds / 256 % 256 ∧
    hexVal (pySlice ds 4 6) = hexVal ds % 256 := by
  have hs1 : pySlice ds 0 2 = ds.take 2 := by simp [pySlice]
  have hs2 : pySlice ds 2 4 = (ds.drop 2).take 2 := rfl
  have hmid : ((ds.drop 2).drop 2) = ds.drop 4 := by
    rw [List.drop_drop]
  have hlen4 : (ds.drop 2).length = 4 := by
    rw [List.length_drop, h6]
  have hlen2 : (ds.drop 4).length = 2 := by
    rw [List.length_drop, h6]
  have hs3 : pySlice ds 4 6 = ds.drop 4 := by
    show (ds.drop 4).take 2 = ds.drop 4
    rw [List.take_of_length_le (by omega)]
  have hsplit1 : ds = ds.take 2 ++ ds.drop 2 := (List.take_append_drop 2 ds).symm
  have hsplit2 : ds.drop 2 = (ds.drop 2).take 2 ++ ds.drop 4 := by
    rw [← hmid]
    exact (List.take_append_drop 2 (ds.drop 2)).symm
  have hlent : (ds.take 2).length = 2 := by
    rw [List.length_take, h6]
    decide
  have hlenm : ((ds.drop 2).take 2).length = 2 := by
    rw [List.length_take, hlen4]
    decide
  have hsub1 : isHexList (ds.take 2) := fun c hc => h c (List.take_subset _ _ hc)
  have hsub2 : isHexList ((ds.drop 2).take 2) :=
    fun c hc => h c (List.drop_subset 2 ds (List.take_subset _ _ hc))
  have hsub3 : isHexList (ds.drop 4) := fun c hc => h c (List.drop_subset _ _ hc)
  have hb1 : hexVal (ds.take 2) < 256 := by
    have := hexVal_lt _ hsub1
    rw [hlent] at this
    omega
  have hb2 : hexVal ((ds.drop 2).take 2) < 256 := by
    have := hexVal_lt _ hsub2
    rw [hlenm] at this
    omega
  have hb3 : hexVal (ds.drop 4) < 256 := by
    have := hexVal_lt _ hsub3
    rw [hlen2] at this
    omega
  have hv2 : hexVal (ds.drop 2) =
      hexVal ((ds.drop 2).take 2) * 256 + hexVal (ds.drop 4) := by
    conv_lhs => rw [hsplit2]
    rw [hexVal_append, hlen2]
    norm_num
  have hv1 : hexVal ds = hexVal (ds.take 2) * 65536 +
      (hexVal ((ds.drop 2).take 2) * 256 + hexVal (ds.drop 4)) := by
    conv_lhs => rw [hsplit1]
    rw [hexVal_append, hlen4, hv2]
    norm_num
  rw [hs1, hs2, hs3]
  omega

/-- A slice of a 6-character string at the channel offsets is nonempty. -/
theorem pySlice_ne_nil (ds : List Char) (h6 : ds.length = 6) (a : Nat)
    (ha : a ≤ 4) : pySlice ds a (a + 2) ≠ [] := by
  intro hc
  have := congrArg List.length hc
  rw [pySlice, List.length_take, List.length_drop, h6] at this
  simp at this
  omega

/-- Round trip of a 6-digit zero-padded hexadecimal print through
`hex_to_rgb`. -/
theorem hexRoundtrip6 (n : Nat) (hn : n < 16777216) :
    hex_to_rgb (String.mk ('#' :: padZero 6 (natToHex n))) =
      ⟨((n / 65536 : Nat) : Int), ((n / 256 % 256 : Nat) : Int), ((n % 256 : Nat) : Int)⟩ := by
  have hlen : (padZero 6 (natToHex n)).length = 6 :=
    length_padZero 6 _ (length_natToHex n 6 (by omega) (by norm_num; omega))
  have hhex : isHexList (padZero 6 (natToHex n)) :=
    isHexList_padZero _ _ (isHexList_natToHex n)
  have hval : hexVal (padZero 6 (natToHex n)) = n := by
    rw [hexVal_padZero, hexVal_natToHex]
  have h1 := pySlice_ne_nil _ hlen 0 (by omega)
  have h2 := pySlice_ne_nil _ hlen 2 (by omega)
  have h3 := pySlice_ne_nil _ hlen 4 (by omega)
  have hrgb := hex_to_rgb_chars_digits _ hhex h1 h2 h3
  obtain ⟨hv1, hv2, hv3⟩ := hexVal_slices _ hlen hhex
  show hex_to_rgb_chars ('#' :: padZero 6 (natToHex n)) = _
  rw [hrgb, hv1, hv2, hv3, hval]

/-- Round trip of three 2-digit zero-padded channel prints through
`hex_to_rgb_chars`. -/
theorem hexRoundtripPairs (m1 m2 m3 : Nat) (h1 : m1 < 256) (h2 : m2 < 256) (h3 : m3 < 256) :
    hex_to_rgb_chars ('#' :: (padZero 2 (natToHex m1) ++ padZero 2 (natToHex m2) ++
        padZero 2 (natToHex m3))) = ⟨(m1 : Int), (m2 : Int), (m3 : Int)⟩ := by
  have hl1 : (padZero 2 (natToHex m1)).length = 2 :=
    length_padZero 2 _ (length_natToHex m1 2 (by omega) (by norm_num; omega))
  have hl2 : (padZero 2 (natToHex m2)).length = 2 :=
    length_padZero 2 _ (length_natToHex m2 2 (by omega) (by norm_num; omega))
  have hl3 : (padZero 2 (natToHex m3)).length = 2 :=
    length_padZero 2 _ (length_natToHex m3 2 (by omega) (by norm_num; omega))
  have hh1 : isHexList (padZero 2 (natToHex m1)) :=
    isHexList_padZero _ _ (isHexList_natToHex m1)
  have hh2 : isHexList (padZero 2 (natToHex m2)) :=
    isHexList_padZero _ _ (isHexList_natToHex m2)
  have hh3 : isHexList (padZero 2 (natToHex m3)) :=
    isHexList_padZero _ _ (isHexList_natToHex m3)
  have hlen : (padZero 2 (natToHex m1) ++ padZero 2 (natToHex m2) ++
      padZero 2 (natToHex m3)).length = 6 := by
    rw [List.length_append, List.length_append, hl1, hl2, hl3]
  have hhex : isHexList (padZero 2 (natToHex m1) ++ padZero 2 (natToHex m2) ++
      padZero 2 (natToHex m3)) := by
    intro c hc
    rcases List.mem_append.mp hc with hc1 | hc1
    · rcases List.mem_append.mp hc1 with hc2 | hc2
      · exact hh1 c hc2
      · exact hh2 c hc2
    · exact hh3 c hc1
  have hval : hexVal (padZero 2 (natToHex m1) ++ padZero 2 (natToHex m2) ++
      padZero 2 (natToHex m3)) = m1 * 65536 + m2 * 256 + m3 := by
    rw [hexVal_append, hexVal_append, hl2, hl3,
      hexVal_padZero, hexVal_padZero, hexVal_padZero,
      hexVal_natToHex, hexVal_natToHex, hexVal_natToHex]
    norm_num
    ring
  have hs1 := pySlice_ne_nil _ hlen 0 (by omega)
  have hs2 := pySlice_ne_nil _ hlen 2 (by omega)
  have hs3 := pySlice_ne_nil _ hlen 4 (by omega)
  have hrgb := hex_to_rgb_chars_digits _ hhex hs1 hs2 hs3
  obtain ⟨hv1, hv2, hv3⟩ := hexVal_slices _ hlen hhex
  rw [hrgb, hv1, hv2, hv3, hval]
  have e1 : (m1 * 65536 + m2 * 256 + m3) / 65536 = m1 := by omega
  have e2 : (m1 * 65536 + m2 * 256 + m3) / 256 % 256 = m2 := by omega
  have e3 : (m1 * 65536 + m2 * 256 + m3) % 256 = m3 := by omega
  rw [e1, e2, e3]

/-- Truncated scaled channels lie in the byte range. -/
theorem pyInt_channel_range (q : ℚ) (h0 : 0 ≤ q) (h1 : q ≤ 1) :
    0 ≤ pyInt (q * 255) ∧ pyInt (q * 255) ≤ 255 := by
  have hq0 : (0:ℚ) ≤ q * 255 := by positivity
  unfold pyInt
  rw [if_neg (not_lt.mpr hq0)]
  constructor
  · exact Int.floor_nonneg.mpr hq0
  · have hle : q * 255 ≤ 255 := by nlinarith
    calc ⌊q * 255⌋ ≤ ⌊(255:ℚ)⌋ := Int.floor_le_floor hle
      _ = 255 := by norm_num

/-- C7: the `hexToRgb` of the resolved hex string round-trips to the
integer channel triple for each of the three input variants of the color
resolver: packed integer, float triple (scaled by 255 and truncated), and
canonical hex string. -/
theorem color_resolve_roundtrip :
    (∀ n : Nat, n < 16777216 →
      (parse_color (some (.intc (n : Int)))).map hex_to_rgb =
        some ⟨((n / 65536 : Nat) : Int), ((n / 256 % 256 : Nat) : Int),
          ((n % 256 : Nat) : Int)⟩) ∧
    (∀ r g b : ℚ, 0 ≤ r → r ≤ 1 → 0 ≤ g → g ≤ 1 → 0 ≤ b → b ≤ 1 →
      (parse_color (some (.triple r g b))).map hex_to_rgb =
        some ⟨pyInt (r * 255), pyInt (g * 255), pyInt (b * 255)⟩) ∧
    (∀ n : Nat, n < 16777216 →
      (parse_color (some (.strc (String.mk ('#' :: padZero 6 (natToHex n)))))).map hex_to_rgb =
        some ⟨((n / 65536 : Nat) : Int), ((n / 256 % 256 : Nat) : Int),
          ((n % 256 : Nat) : Int)⟩) := by
  refine ⟨?_, ?_, ?_⟩
  · intro n hn
    have hfmt : pyFormat06x ((n : Nat) : Int) = padZero 6 (natToHex n) := by
      unfold pyFormat06x
      rw [if_pos (Int.natCast_nonneg n)]
      simp
    show (some (String.mk ('#' :: pyFormat06x (n : Int)))).map hex_to_rgb = _
    rw [hfmt]
    simp only [Option.map_some']
    rw [hexRoundtrip6 n hn]
  · intro r g b hr0 hr1 hg0 hg1 hb0 hb1
    obtain ⟨hr0', hr1'⟩ := pyInt_channel_range r hr0 hr1
    obtain ⟨hg0', hg1'⟩ := pyInt_channel_range g hg0 hg1
    obtain ⟨hb0', hb1'⟩ := pyInt_channel_range b hb0 hb1
    have hfmt : ∀ m : Int, 0 ≤ m → pyFormat02x m = padZero 2 (natToHex m.toNat) := by
      intro m hm
      unfold pyFormat02x
      rw [if_pos hm]
    show (some (String.mk ('#' :: (pyFormat02x (pyInt (r * 255)) ++
      pyFormat02x (pyInt (g * 255)) ++ pyFormat02x (pyInt (b * 255)))))).map hex_to_rgb = _
    rw [hfmt _ hr0', hfmt _ hg0', hfmt _ hb0']
    simp only [Option.map_some']
    show some (hex_to_rgb_chars ('#' :: (padZero 2 (natToHex (pyInt (r * 255)).toNat) ++
      padZero 2 (natToHex (pyInt (g * 255)).toNat) ++
      padZero 2 (natToHex (pyInt (b * 255)).toNat)))) = _
    rw [hexRoundtripPairs (pyInt (r * 255)).toNat (pyInt (g * 255)).toNat
      (pyInt (b * 255)).toNat (by omega) (by omega) (by omega)]
    rw [Int.toNat_of_nonneg hr0', Int.toNat_of_nonneg hg0', Int.toNat_of_nonneg hb0']
  · intro n hn
    show (some (String.mk ('#' :: padZero 6 (natToHex n)))).map hex_to_rgb = _
    simp only [Option.map_some']
    rw [hexRoundtrip6 n hn]

/-- C7 witness: packed integer 0xFF0000 resolves to "#ff0000" and round
trips to (255, 0, 0); the float triple (1, 0, 0) and the literal string
"#ff0000" round-trip to the same channels. -/
theorem color_resolve_roundtrip_witness :
    parse_color (some (.intc 16711680)) = some "#ff0000" ∧
    (parse_color (some (.intc 16711680))).map hex_to_rgb = some ⟨255, 0, 0⟩ ∧
    (parse_color (some (.triple 1 0 0))).map hex_to_rgb = some ⟨255, 0, 0⟩ ∧
    (parse_color (some (.strc "#ff0000"))).map hex_to_rgb = some ⟨255, 0, 0⟩ := by
  refine ⟨by decide, ?_, ?_, ?_⟩
  · have h := color_resolve_roundtrip.1 16711680 (by norm_num)
    have e : (⟨((16711680 / 65536 : Nat) : Int), ((16711680 / 256 % 256 : Nat) : Int),
        ((16711680 % 256 : Nat) : Int)⟩ : RGB) = ⟨255, 0, 0⟩ := by norm_num
    rw [e] at h
    exact_mod_cast h
  · have h := color_resolve_roundtrip.2.1 1 0 0 (by norm_num) (by norm_num)
      (by norm_num) (by norm_num) (by norm_num) (by norm_num)
    rw [h]
    norm_num [pyInt]
  · have h := color_resolve_roundtrip.2.2 16711680 (by norm_num)
    have hs : String.mk ('#' :: padZero 6 (natToHex 16711680)) = "#ff0000" := by decide
    rw [hs] at h
    have e : (⟨((16711680 / 65536 : Nat) : Int), ((16711680 / 256 % 256 : Nat) : Int),
        ((16711680 % 256 : Nat) : Int)⟩ : RGB) = ⟨255, 0, 0⟩ := by norm_num
    rw [e] at h
    exact h
